import Mathlib

/-!
Verification of the portty repository's specification against a shallow
embedding of its Rust sources.

Modelling conventions:
* Rust `String`/`&str` values are modelled as `List Char` (`Portty.Str`).
  Rust indexes strings by UTF-8 byte; the model indexes by character, which
  coincides on ASCII data (all protocol tokens and all concrete inputs used
  here are ASCII).
* File contents are modelled as the full character sequence of the file.
* Rust `f64` literals are modelled by their exact rational value; the
  `[0.0, 1.0]` range test is performed on that exact value (rounding of a
  decimal literal to the nearest `f64` is not modelled).
* Filesystem queries (`is_dir`, `is_file`) are modelled by an explicit
  oracle passed as an argument; IO errors absorbed by the code are not
  modelled (the functions are total on the modelled state).
-/

deriving instance DecidableEq for Except

namespace Portty

abbrev Str := List Char

/-- Rust `char::is_whitespace`: the Unicode `White_Space` property. -/
def rustWs (c : Char) : Bool :=
  c = ' ' || c = '\t' || c = '\n' || (c.val = 0x0B) || (c.val = 0x0C) || c = '\r' ||
  c.val = 0x85 || c.val = 0xA0 || c.val = 0x1680 ||
  (0x2000 ≤ c.val && c.val ≤ 0x200A) ||
  c.val = 0x2028 || c.val = 0x2029 || c.val = 0x202F || c.val = 0x205F || c.val = 0x3000

/-- Drop trailing characters satisfying `p` (Rust `trim_end`-style helper). -/
def dropTrailing (p : Char → Bool) (s : Str) : Str :=
  ((s.reverse).dropWhile p).reverse

/-- Rust `str::trim`: remove leading and trailing whitespace. -/
def rustTrim (s : Str) : Str :=
  dropTrailing rustWs (s.dropWhile rustWs)

/-- Rust `str::strip_prefix`: remove `p` from the front if present. -/
def stripPre (p s : Str) : Option Str :=
  if p.isPrefixOf s then some (s.drop p.length) else none

/-- Rust `str::strip_suffix`: remove `p` from the back if present. -/
def stripSuf (p s : Str) : Option Str :=
  if p.isSuffixOf s then some (s.take (s.length - p.length)) else none

/-- Rust `str::split_once(sep)`: split at the first occurrence of `sep`. -/
def splitOnce (sep : Char) : Str → Option (Str × Str)
  | [] => none
  | c :: rest =>
    if c = sep then some ([], rest)
    else (splitOnce sep rest).map (fun p => (c :: p.1, p.2))

/-- Rust `str::split(sep)`: separator-style split, keeping empty pieces
(`"a,"` splits into `["a", ""]`, `""` into `[""]`). -/
def splitSep (sep : Char) : Str → List Str
  | [] => [[]]
  | c :: rest =>
    if c = sep then [] :: splitSep sep rest
    else
      match splitSep sep rest with
      | [] => [[c]]
      | l :: ls => (c :: l) :: ls

/-- Helper for `splitWs`: `cur` holds the reversed current token. -/
def splitWsAux (cur : Str) : Str → List Str
  | [] => if cur = [] then [] else [cur.reverse]
  | c :: rest =>
    if rustWs c then
      if cur = [] then splitWsAux [] rest else cur.reverse :: splitWsAux [] rest
    else splitWsAux (c :: cur) rest

/-- Rust `str::split_whitespace`: maximal non-whitespace tokens. -/
def splitWs (s : Str) : List Str := splitWsAux [] s

/-- Split a string at `'\n'` terminators, Rust `str::lines` style before
carriage-return stripping: no empty trailing piece after a final `'\n'`. -/
def rustSplitLines : Str → List Str
  | [] => []
  | c :: rest =>
    if c = '\n' then [] :: rustSplitLines rest
    else
      match rustSplitLines rest with
      | [] => [[c]]
      | l :: ls => (c :: l) :: ls

/-- Strip one trailing `'\r'` (the `"\r\n"` line-terminator case of
Rust `str::lines`). -/
def stripCR (l : Str) : Str :=
  if l.getLast? = some '\r' then l.dropLast else l

/-- Rust `str::lines`: split at `'\n'` or `"\r\n"` terminators. -/
def rustLines (s : Str) : List Str :=
  (rustSplitLines s).map stripCR

/-! ## `crates/lib/src/files.rs` — the line-file store

The file's contents are modelled as a `Str`; each operation is a pure
function from old contents to new contents. -/

/-- `files::read_lines`: the non-empty lines of the file.  (The Rust
function absorbs IO errors into an empty result; the model has no IO
errors, so only the successful read is modelled.) -/
def read_lines (file : Str) : List Str :=
  (rustLines file).filter (fun l => ! l.isEmpty)

/-- Rust `[String]::join("\n")`. -/
def joinNL : List Str → Str
  | [] => []
  | [l] => l
  | l :: ls => l ++ '\n' :: joinNL ls

/-- `files::write_lines`: one entry per line with a trailing newline;
an empty slice writes an empty file. -/
def write_lines (lines : List Str) : Str :=
  if lines.isEmpty then [] else joinNL lines ++ ['\n']

/-- `files::append_lines`: append each entry followed by `'\n'`
(the `writeln!` loop). -/
def append_lines (file : Str) : List Str → Str
  | [] => file
  | l :: ls => append_lines (file ++ l ++ ['\n']) ls

/-- `files::remove_lines`: read, filter out entries contained in
`toRemove`, rewrite. -/
def remove_lines (file : Str) (toRemove : List Str) : Str :=
  write_lines ((read_lines file).filter (fun e => ! toRemove.contains e))

/-! ## Numeric parsing and printing helpers -/

/-- Decimal value of a digit string (Rust integer-parser accumulation). -/
def decVal (s : Str) : Nat :=
  s.foldl (fun a c => 10 * a + (c.toNat - 48)) 0

/-- Drop the optional leading `'+'` accepted by Rust's unsigned integer
parsers. -/
def stripPlus : Str → Str
  | '+' :: r => r
  | s => s

/-- Rust unsigned `from_str`/`from_str_radix(…, 10)` bounded by the integer
type's maximum: an optional `'+'` sign followed by one or more decimal
digits, rejecting overflow. -/
def parseNatDec (bound : Nat) (s : Str) : Option Nat :=
  let ds := stripPlus s
  if ds ≠ [] ∧ ds.all Char.isDigit then
    if decVal ds ≤ bound then some (decVal ds) else none
  else none

/-- Hexadecimal digit test (Rust `char::is_digit(16)` as used by
`from_str_radix`). -/
def isHexDig (c : Char) : Bool :=
  c.isDigit || ('a' ≤ c && c ≤ 'f') || ('A' ≤ c && c ≤ 'F')

def hexDigVal (c : Char) : Nat :=
  if c.isDigit then c.toNat - 48
  else if 'a' ≤ c && c ≤ 'f' then c.toNat - 87
  else c.toNat - 55

def hexVal (s : Str) : Nat :=
  s.foldl (fun a c => 16 * a + hexDigVal c) 0

/-- Rust `u8::from_str_radix(…, 16)`-style parser: optional `'+'`, one or
more hex digits, bounded. -/
def parseNatHex (bound : Nat) (s : Str) : Option Nat :=
  let ds := stripPlus s
  if ds ≠ [] ∧ ds.all isHexDig then
    if hexVal ds ≤ bound then some (hexVal ds) else none
  else none

/-- The character of a decimal digit. -/
def digitChar (n : Nat) : Char :=
  if n = 0 then '0' else if n = 1 then '1' else if n = 2 then '2'
  else if n = 3 then '3' else if n = 4 then '4' else if n = 5 then '5'
  else if n = 6 then '6' else if n = 7 then '7' else if n = 8 then '8' else '9'

/-- Decimal rendering of a natural number (Rust `Display` for unsigned
integers). -/
def natDigits (n : Nat) : Str :=
  if h : n < 10 then [digitChar n]
  else natDigits (n / 10) ++ [digitChar (n % 10)]
decreasing_by exact Nat.div_lt_self (by omega) (by omega)

/-! ## `crates/lib/src/protocol.rs` — control-socket codec -/

/-- `protocol::Request`. -/
inductive Request where
  | submit (sessionId : Option Str)
  | cancel (sessionId : Option Str)
  | verify (sessionId : Option Str)
  | reset (sessionId : Option Str)
  | list
deriving DecidableEq

/-- `Request::encode`: a single newline-terminated line. -/
def Request.encode : Request → Str
  | .submit none => "submit\n".toList
  | .submit (some id) => "submit ".toList ++ id ++ ['\n']
  | .cancel none => "cancel\n".toList
  | .cancel (some id) => "cancel ".toList ++ id ++ ['\n']
  | .verify none => "verify\n".toList
  | .verify (some id) => "verify ".toList ++ id ++ ['\n']
  | .reset none => "reset\n".toList
  | .reset (some id) => "reset ".toList ++ id ++ ['\n']
  | .list => "list\n".toList

/-- `Request::decode`: trim the line, split at the first space into a verb
and an optional argument. -/
def Request.decode (line : Str) : Except Str Request :=
  let t := rustTrim line
  let ca : Str × Option Str :=
    match splitOnce ' ' t with
    | some (cmd, arg) => (cmd, some arg)
    | none => (t, none)
  if ca.1 = "submit".toList then .ok (.submit ca.2)
  else if ca.1 = "cancel".toList then .ok (.cancel ca.2)
  else if ca.1 = "verify".toList then .ok (.verify ca.2)
  else if ca.1 = "reset".toList then .ok (.reset ca.2)
  else if ca.1 = "list".toList then .ok .list
  else .error ("unknown command: ".toList ++ ca.1)

/-- `protocol::SessionInfo`. -/
structure SessionInfo where
  id : Str
  portal : Str
  operation : Str
  title : Option Str
  created : Nat
  dir : Str
deriving DecidableEq

/-- `protocol::Response`. -/
inductive Response where
  | ok
  | error (msg : Str)
  | sessions (l : List SessionInfo)
deriving DecidableEq

/-- `protocol::sanitize_field`: replace embedded `'\t'`, `'\n'`, `'\r'`
with a single space each. -/
def sanitize_field (s : Str) : Str :=
  s.map (fun c => if c = '\t' || c = '\n' || c = '\r' then ' ' else c)

/-- One session-info line of `Response::encode`: six tab-separated fields
followed by `'\n'`. -/
def sessionLine (s : SessionInfo) : Str :=
  sanitize_field s.id ++ '\t' ::
  (sanitize_field s.portal ++ '\t' ::
  (sanitize_field s.operation ++ '\t' ::
  (natDigits s.created ++ '\t' ::
  (sanitize_field s.dir ++ '\t' ::
  (sanitize_field (s.title.getD []) ++ ['\n'])))))

/-- Join fields with a single separator character (no terminator). -/
def joinCh (sep : Char) : List Str → Str
  | [] => []
  | [l] => l
  | l :: ls => l ++ sep :: joinCh sep ls

/-- The six fields of a session-info line, in order: id, portal,
operation, created, directory, title — the textual fields sanitized. -/
def infoFields (s : SessionInfo) : List Str :=
  [sanitize_field s.id, sanitize_field s.portal, sanitize_field s.operation,
   natDigits s.created, sanitize_field s.dir, sanitize_field (s.title.getD [])]

/-- `Response::encode`. -/
def Response.encode : Response → Str
  | .ok => "ok\n".toList
  | .error msg => "error: ".toList ++ sanitize_field msg ++ ['\n']
  | .sessions ss => (ss.map sessionLine).flatten ++ "ok\n".toList

/-- `SessionInfo::decode_line`: parse a tab-separated session-info line.
(The Rust error message interpolates a `ParseIntError`; the model uses a
fixed message for that case.) -/
def SessionInfo.decode_line (line : Str) : Except Str SessionInfo :=
  let parts := splitSep '\t' line
  if parts.length < 5 then
    .error ("expected at least 5 tab-separated fields, got ".toList
            ++ natDigits parts.length)
  else
    match parseNatDec (2 ^ 64 - 1) (parts.getD 3 []) with
    | none => .error "invalid created timestamp".toList
    | some created =>
      let title := (parts[5]?).bind
        (fun t => if t.isEmpty then none else some t)
      .ok { id := parts.getD 0 [], portal := parts.getD 1 [],
            operation := parts.getD 2 [], created := created,
            dir := parts.getD 4 [], title := title }

/-! ## `crates/lib/src/codec.rs` and `client.rs` — response decoding

`read_response` reads newline-terminated chunks from the stream; the model
receives the list of chunks (each including its `'\n'` terminator when one
was present on the wire). -/

inductive IpcFail where
  | eof
  | protocol (msg : Str)
deriving DecidableEq

/-- `codec::read_response`, one chunk per `read_line` call:
`trim_end_matches('\n')` then `trim_end_matches('\r')`, then dispatch on
`"ok"`, `"error: "` or a session-info line. -/
def read_response (acc : List SessionInfo) : List Str → Except IpcFail Response
  | [] => .error .eof
  | line :: rest =>
    let trimmed := dropTrailing (fun c => c = '\r') (dropTrailing (fun c => c = '\n') line)
    if trimmed = "ok".toList then
      .ok (if acc.isEmpty then Response.ok else Response.sessions acc)
    else
      match stripPre "error: ".toList trimmed with
      | some msg => .ok (Response.error msg)
      | none =>
        match SessionInfo.decode_line trimmed with
        | .ok info => read_response (acc ++ [info]) rest
        | .error e => .error (.protocol e)

inductive ClientFail where
  | codec (e : IpcFail)
  | server (msg : Str)
deriving DecidableEq

/-- `DaemonClient::list`: send `list`, decode the response; a bare `ok`
decodes to the empty session list. -/
def client_list (respChunks : List Str) : Except ClientFail (List SessionInfo) :=
  match read_response [] respChunks with
  | .ok (.sessions ss) => .ok ss
  | .ok .ok => .ok []
  | .ok (.error e) => .error (.server e)
  | .error e => .error (.codec e)

/-! ## `crates/lib/src/portal/screenshot.rs` — color parsing and validation

`parse_color` returns `(f64, f64, f64)`; the model returns exact rational
channel values.  Rust float literals are parsed to their exact rational
value (see the header note); the parsed value is carried as a
numerator/denominator pair so that the `[0.0, 1.0]` range test is an
integer comparison. -/

/-- `(takeWhile isDigit, dropWhile isDigit)`. -/
def spanDigits (s : Str) : Str × Str :=
  (s.takeWhile Char.isDigit, s.dropWhile Char.isDigit)

/-- Split an optional leading sign (Rust float grammar). -/
def splitSign : Str → Int × Str
  | '+' :: r => (1, r)
  | '-' :: r => (-1, r)
  | s => (1, s)

/-- Optional exponent part of a Rust float literal; `some e` only when the
whole remaining input is a well-formed (possibly empty) exponent. -/
def parseExpPart : Str → Option Int
  | [] => some 0
  | c :: rest =>
    if c = 'e' ∨ c = 'E' then
      let sr := splitSign rest
      let ds := spanDigits sr.2
      if ds.1 ≠ [] ∧ ds.2 = [] then some (sr.1 * decVal ds.1) else none
    else none

/-- Combine sign, significand digits, fraction length and exponent into an
exact rational `(numerator, positive denominator)`. -/
def floatRatOf (sgn : Int) (m : Nat) (fracLen : Nat) (e : Int) : Int × Nat :=
  let p : Int := e - fracLen
  if 0 ≤ p then (sgn * m * 10 ^ p.toNat, 1) else (sgn * m, 10 ^ (-p).toNat)

/-- Rust `f64::from_str` grammar (sign, digits with optional point, optional
exponent), evaluated exactly.  The `inf`/`nan` spellings are not modelled:
they are rejected by the `[0.0, 1.0]` range test that follows every use of
this parser, so the end-to-end behavior is unchanged. -/
def parseFloat (s : Str) : Option (Int × Nat) :=
  let sr := splitSign s
  let ip := spanDigits sr.2
  match ip.2 with
  | '.' :: rr =>
    let fp := spanDigits rr
    if ip.1 = [] ∧ fp.1 = [] then none
    else (parseExpPart fp.2).map (fun e => floatRatOf sr.1 (decVal (ip.1 ++ fp.1)) fp.1.length e)
  | _ =>
    if ip.1 = [] then none
    else (parseExpPart ip.2).map (fun e => floatRatOf sr.1 (decVal ip.1) 0 e)

/-- The Rust range test `(0.0..=1.0).contains(&x)` on an exact rational. -/
def inUnit (v : Int × Nat) : Bool :=
  0 ≤ v.1 ∧ v.1 ≤ (v.2 : Int)

def ratOfPair (v : Int × Nat) : ℚ := (v.1 : ℚ) / (v.2 : ℚ)

/-- Space-separated-floats branch of `parse_color` (the last branch; falls
out of the function when it fails). -/
def parse_color_floats (s : Str) : Option (ℚ × ℚ × ℚ) :=
  let parts := splitWs s
  if parts.length = 3 then
    match parseFloat (parts.getD 0 []), parseFloat (parts.getD 1 []), parseFloat (parts.getD 2 []) with
    | some r, some g, some b =>
      if inUnit r ∧ inUnit g ∧ inUnit b then some (ratOfPair r, ratOfPair g, ratOfPair b)
      else none
    | _, _, _ => none
  else none

/-- `rgb(r, g, b)` branch of `parse_color`; on shape mismatch control falls
through to the float branch, while a failing `u8` parse aborts the whole
function (the `.ok()?` early return). -/
def parse_color_rgb (s : Str) : Option (ℚ × ℚ × ℚ) :=
  match (stripPre "rgb(".toList s).bind (stripSuf [')']) with
  | some inner =>
    let parts := (splitSep ',' inner).map rustTrim
    if parts.length = 3 then
      match parseNatDec 255 (parts.getD 0 []), parseNatDec 255 (parts.getD 1 []),
            parseNatDec 255 (parts.getD 2 []) with
      | some r, some g, some b => some ((r : ℚ) / 255, (g : ℚ) / 255, (b : ℚ) / 255)
      | _, _, _ => none
    else parse_color_floats s
  | none => parse_color_floats s

/-- `screenshot::parse_color`: trim, then try `#rrggbb`, then `rgb(r,g,b)`,
then three whitespace-separated floats.  A `#`-prefixed six-character
remainder commits to the hex branch (`from_str_radix` failures abort via
`?`). -/
def parse_color (s0 : Str) : Option (ℚ × ℚ × ℚ) :=
  let s := rustTrim s0
  match stripPre ['#'] s with
  | some hex =>
    if hex.length = 6 then
      match parseNatHex 255 (hex.take 2), parseNatHex 255 ((hex.drop 2).take 2),
            parseNatHex 255 (hex.drop 4) with
      | some r, some g, some b => some ((r : ℚ) / 255, (g : ℚ) / 255, (b : ℚ) / 255)
      | _, _, _ => none
    else parse_color_rgb s
  | none => parse_color_rgb s

/-- The error message of the pick-color validator. -/
def colorErrMsg (c : Str) : Str :=
  "invalid color format: '".toList ++ c ++
  "' (expected #rrggbb, 'R G B' floats, or rgb(r,g,b))".toList

/-- `screenshot::validate`: arity exactly one; for `pick-color`, strip a
`file://` prefix and require the remainder to parse as a color, returning
the stripped entry; other operations pass entries through. -/
def screenshot_validate (operation : Str) (entries : List Str) : Except Str (List Str) :=
  if entries.isEmpty then .error "No entries in submission".toList
  else if entries.length > 1 then
    .error ("Screenshot expects 1 entry, got ".toList ++ natDigits entries.length)
  else if operation = "pick-color".toList then
    let e := entries.getD 0 []
    let colorStr := (stripPre "file://".toList e).getD e
    match parse_color colorStr with
    | some _ => .ok [colorStr]
    | none => .error (colorErrMsg colorStr)
  else .ok entries

/-! Spec-side color grammar, written from the claim's wording
("#rrggbb hex case-insensitive, rgb(r,g,b) with 0-255 integers, or three
whitespace-separated floats each in [0.0,1.0]"), extended with the leading
`'+'` sign that every Rust integer parser used by the code accepts.  It is
compared with the source-translated `parse_color` in the C1 theorem. -/

/-- A two-character component of the hex form: two hex digits, or the
`'+'` sign accepted by `from_str_radix` followed by one hex digit. -/
def hexPairOk (p : Str) : Bool :=
  match p with
  | [a, b] => (isHexDig a && isHexDig b) || (a = '+' && isHexDig b)
  | _ => false

/-- A `0`–`255` integer component (decimal digits, optional leading `'+'`). -/
def specU8 (p : Str) : Bool :=
  let ds := stripPlus p
  ds ≠ [] && ds.all Char.isDigit && decVal ds ≤ 255

def specHex (s : Str) : Bool :=
  match s with
  | '#' :: h =>
    h.length = 6 && hexPairOk (h.take 2) && hexPairOk ((h.drop 2).take 2) && hexPairOk (h.drop 4)
  | _ => false

def specRgb (s : Str) : Bool :=
  match (stripPre "rgb(".toList s).bind (stripSuf [')']) with
  | some inner =>
    let parts := (splitSep ',' inner).map rustTrim
    parts.length = 3 && parts.all specU8
  | none => false

def specFloats (s : Str) : Bool :=
  let parts := splitWs s
  parts.length = 3 && parts.all (fun p =>
    match parseFloat p with
    | some v => inUnit v
    | none => false)

/-- A color per the spec's grammar (on an already-trimmed string). -/
def colorGrammar (s : Str) : Bool :=
  specHex s || specRgb s || specFloats s

/-! ## `crates/lib/src/portal/file_chooser.rs` — validation and URI building

Filesystem queries (`Path::is_dir`, `Path::is_file`) are answered by an
explicit oracle. -/

/-- `file_chooser::SelectionMode`. -/
inductive SelectionMode where
  | pick (multiple directory : Bool)
  | save
  | saveMultiple
deriving DecidableEq

/-- `file_chooser::FilterPattern`. -/
inductive FilterPattern where
  | glob (p : Str)
  | mimeType (p : Str)
deriving DecidableEq

/-- `file_chooser::Filter`. -/
structure FileFilter where
  name : Str
  patterns : List FilterPattern
deriving DecidableEq

/-- `file_chooser::SessionOptions`. -/
structure SessionOptions where
  title : Str
  mode : SelectionMode
  current_folder : Option Str
  candidates : List Str
  filters : List FileFilter
  current_filter : Option Nat
deriving DecidableEq

/-- The filesystem oracle standing in for `Path::is_dir` / `Path::is_file`. -/
structure FsOracle where
  isDir : Str → Bool
  isFile : Str → Bool

/-- Unix `Path::is_absolute`: the path has a root. -/
def isAbsolute (p : Str) : Bool :=
  p.head? = some '/'

/-- Rust `folder.parent().unwrap_or(&folder)`: drop the final path
component (ignoring trailing separators); keep the path itself when
`parent()` is `None` (root or empty). -/
def dirParent (p : Str) : Str :=
  if p.isEmpty ∨ p = ['/'] then p
  else
    let q := dropTrailing (fun c => c = '/') p
    let r := dropTrailing (fun c => c ≠ '/') q
    let s := dropTrailing (fun c => c = '/') r
    if s.isEmpty then (if isAbsolute p then ['/'] else []) else s

/-- Unix `Path::join` (`PathBuf::push`): an absolute right operand
replaces the base; otherwise insert a `'/'` separator unless the base is
empty or already ends with one. -/
def pathJoin (base rel : Str) : Str :=
  if isAbsolute rel then rel
  else if base.isEmpty then rel
  else if base.getLast? = some '/' then base ++ rel
  else base ++ '/' :: rel

/-- `file_chooser::resolve_path`: strip a `file://` prefix, keep absolute
paths, resolve relative ones against `current_folder` when present. -/
def resolve_path (entry : Str) (current_folder : Option Str) : Str :=
  let pathStr := (stripPre "file://".toList entry).getD entry
  if isAbsolute pathStr then pathStr
  else
    match current_folder with
    | some folder => pathJoin folder pathStr
    | none => pathStr

/-- Characters the modelled URI encoder leaves unencoded. -/
def uriSafe (c : Char) : Bool :=
  c.isAlphanum || c = '-' || c = '.' || c = '_' || c = '~' || c = '/'

def hexDigitUpper (n : Nat) : Char :=
  if n < 10 then Char.ofNat (48 + n) else Char.ofNat (55 + n)

/-- Percent-encode one character (via its UTF-8 bytes). -/
def percentEncodeChar (c : Char) : Str :=
  if uriSafe c then [c]
  else (String.utf8EncodeChar c).flatMap
    (fun b => ['%', hexDigitUpper (b.toNat / 16), hexDigitUpper (b.toNat % 16)])

/-- Modelled from the spec: `path_to_file_uri` delegates to the external
`url` crate (`Url::from_file_path`), which is outside this repository; the
spec says the `file://` prefix is "re-applied at the end using a URI-safe
encoder".  Absolute paths become `file://` plus the percent-encoded path;
relative paths (rejected by the crate) use the source's fallback
`format!("file://{}", path.display())` verbatim. -/
def path_to_file_uri (p : Str) : Str :=
  if isAbsolute p then "file://".toList ++ p.flatMap percentEncodeChar
  else "file://".toList ++ p

/-- `file_chooser::resolve_to_uri`. -/
def resolve_to_uri (entry : Str) (current_folder : Option Str) : Str :=
  path_to_file_uri (resolve_path entry current_folder)

/-- `file_chooser::resolve_save_file_to_uri`: join the candidate filename
onto the selected path when one is present, non-empty, and the selected
path is a directory (`Path::join`, so an absolute candidate replaces the
selected path). -/
def resolve_save_file_to_uri (fs : FsOracle) (entry : Str)
    (current_folder : Option Str) (candidate_name : Option Str) : Str :=
  let selected := resolve_path entry current_folder
  match candidate_name with
  | some name =>
    if ¬ name.isEmpty ∧ fs.isDir selected then path_to_file_uri (pathJoin selected name)
    else path_to_file_uri selected
  | none => path_to_file_uri selected

/-- `file_chooser::validate`. -/
def file_chooser_validate (fs : FsOracle) (operation : Str) (entries : List Str)
    (options : SessionOptions) : Except Str (List Str) :=
  if entries.isEmpty then .error "No entries in submission".toList
  else
    let current_folder := options.current_folder
    if operation = "save-file".toList then
      if entries.length > 1 then
        .error ("Save mode expects 1 entry, got ".toList ++ natDigits entries.length)
      else
        let candidate_name := options.candidates.head?
        .ok (entries.map (fun e => resolve_save_file_to_uri fs e current_folder candidate_name))
    else if operation = "save-files".toList then
      if options.candidates.isEmpty then
        .ok (entries.map (fun e => resolve_to_uri e current_folder))
      else
        match entries.head? with
        | none => .error "No folder selected for save-files".toList
        | some folder_entry =>
          let folder0 := resolve_path folder_entry current_folder
          let folder := if fs.isFile folder0 then dirParent folder0 else folder0
          .ok (options.candidates.map (fun name => path_to_file_uri (pathJoin folder name)))
    else if operation = "open-file".toList then
      match options.mode with
      | .pick multiple _ =>
        if ¬ multiple ∧ entries.length > 1 then
          .error ("Single-pick mode expects 1 entry, got ".toList ++ natDigits entries.length)
        else .ok (entries.map (fun e => resolve_to_uri e current_folder))
      | _ => .ok (entries.map (fun e => resolve_to_uri e current_folder))
    else .ok (entries.map (fun e => resolve_to_uri e current_folder))

/-! ## `crates/lib/src/paths.rs` — base-directory policy

The relevant filesystem state is whether the base directory exists and, if
so, its owner uid and permission bits. -/

/-- Owner and permission bits of a directory. -/
structure DirMeta where
  uid : Nat
  mode : Nat
deriving DecidableEq

inductive IoErr where
  | permissionDenied
deriving DecidableEq

/-- `paths::ensure_base_dir`: create the base at mode `0o700` (masked by
the process umask) when missing, tolerate prior existence, fail with
`PermissionDenied` when the owner differs from the caller, and rewrite the
mode to `0o700` when it disagrees.  Parent-directory creation and IO
errors other than `AlreadyExists` are not modelled. -/
def ensure_base_dir (myUid umask : Nat) (base : Option DirMeta) :
    Except IoErr (Option DirMeta) :=
  let meta : DirMeta :=
    match base with
    | none => { uid := myUid, mode := 0o700 &&& (0o777 ^^^ (umask &&& 0o777)) }
    | some m => m
  if meta.uid ≠ myUid then .error .permissionDenied
  else if meta.mode &&& 0o777 ≠ 0o700 then .ok (some { meta with mode := 0o700 })
  else .ok (some meta)

/-! ## `crates/ipc/src/queue.rs` — the in-memory submission queue -/

/-- `portal_type::PortalType`. -/
inductive PortalType where
  | fileChooser
  | screenshot
deriving DecidableEq

/-- `queue::QueuedCommand`. -/
inductive QueuedCommand where
  | select (uris : List Str)
  | deselect (uris : List Str)
  | clear
deriving DecidableEq

/-- `queue::Submission`. -/
structure Submission where
  commands : List QueuedCommand
  created : Nat
  portal : Option PortalType
deriving DecidableEq

/-- `queue::SubmissionQueue`. -/
structure SubmissionQueue where
  pending : List QueuedCommand
  submissions : List Submission
deriving DecidableEq

/-- The match test of `pop_for_portal`: `s.portal.is_none_or(|p| p == portal)`. -/
def submissionMatches (portal : PortalType) (s : Submission) : Bool :=
  match s.portal with
  | none => true
  | some p => p = portal

/-- `SubmissionQueue::pop_for_portal`: remove and return the first
submission whose portal is `None` or equal to the requested portal;
`Vec::remove` keeps the order of the rest. -/
def pop_for_portal (q : SubmissionQueue) (portal : PortalType) :
    Option Submission × SubmissionQueue :=
  match q.submissions.findIdx? (fun s => submissionMatches portal s) with
  | none => (none, q)
  | some idx => (q.submissions[idx]?, { q with submissions := q.submissions.eraseIdx idx })

/-! ## `crates/daemon/src/session.rs` — the session run loop

The loop polls the child and the session socket; the model keeps the parts
that determine the returned `SessionResult`: the `cancelled`/`submitted`
flags, the selection (a `HashSet<String>`, modelled as a list with
insert-if-absent), and the request handler's effect on them.  The loop
ends when the child exits (an implicit submit) or, headless, when an
explicit `Submit`/`Cancel` arrived. -/

/-- `ipc::Request` (the session-socket request enum), base commands only
(the `Extended` variant is uninhabited for sessions). -/
inductive SessionRequest where
  | select (uris : List Str)
  | deselect (uris : List Str)
  | clear
  | submit
  | cancel
  | getOptions
  | getSelection
deriving DecidableEq

/-- `SessionResult`. -/
inductive SessionResult where
  | success (uris : List Str)
  | cancelled
deriving DecidableEq

/-- The mutable state `handle_request` acts on. -/
structure RunState where
  selection : List Str
  cancelled : Bool
  submitted : Bool
deriving DecidableEq

/-- `HashSet::extend`-style insert: add when absent. -/
def setInsert (sel : List Str) (uri : Str) : List Str :=
  if sel.contains uri then sel else sel ++ [uri]

/-- `Session::handle_request`, restricted to its effect on the run state. -/
def handle_request (st : RunState) : SessionRequest → RunState
  | .select uris => { st with selection := uris.foldl setInsert st.selection }
  | .deselect uris => { st with selection := st.selection.filter (fun u => ¬ uris.contains u) }
  | .clear => { st with selection := [] }
  | .submit => { st with submitted := true }
  | .cancel => { st with cancelled := true }
  | .getOptions => st
  | .getSelection => st

/-- The result decision at the bottom of `Session::run`. -/
def decide_result (st : RunState) : SessionResult :=
  if st.cancelled then .cancelled
  else if st.submitted ∧ ¬ st.selection.isEmpty then .success st.selection
  else .cancelled

/-- `Session::run`, abstracted over the request sequence the loop served
and whether it ended because the child exited (which sets `submitted`). -/
def session_run (initial : List Str) (reqs : List SessionRequest) (childExited : Bool) :
    SessionResult :=
  let st := reqs.foldl handle_request
    { selection := initial, cancelled := false, submitted := false }
  let st := if childExited then { st with submitted := true } else st
  decide_result st

/-- Does the first candidate apply in `resolve_save_file_to_uri`: present,
non-empty, and the selected path is an existing directory. -/
def saveCandidateApplies (fs : FsOracle) (candidates : List Str) (selected : Str) : Prop :=
  ∃ name, candidates.head? = some name ∧ name ≠ [] ∧ fs.isDir selected = true

/-- A session identifier that survives the request codec's line framing:
non-empty, free of `'\n'`, not ending in whitespace. -/
def goodId (id : Str) : Prop :=
  id ≠ [] ∧ '\n' ∉ id ∧ ∀ c, id.getLast? = some c → rustWs c = false

/-- The requests whose optional session identifier survives framing. -/
def goodRequest : Request → Prop
  | .submit (some id) => goodId id
  | .cancel (some id) => goodId id
  | .verify (some id) => goodId id
  | .reset (some id) => goodId id
  | _ => True

/-! # Theorems -/

/-! ### Line-splitting lemmas for the line-file store -/

/-- Splitting a non-empty string yields at least one line. -/
theorem rustSplitLines_ne_nil (s : Str) (h : s ≠ []) : rustSplitLines s ≠ [] := by
  match s with
  | [] => exact absurd rfl h
  | c :: rest =>
    by_cases hc : c = '\n'
    · simp [rustSplitLines, hc]
    · simp only [rustSplitLines, hc, if_false]
      cases rustSplitLines rest <;> simp

/-- Splitting distributes over concatenation at a newline boundary. -/
theorem rustSplitLines_append (s t : Str) (h : s.getLast? = some '\n') :
    rustSplitLines (s ++ t) = rustSplitLines s ++ rustSplitLines t := by
  induction s with
  | nil => simp at h
  | cons c rest ih =>
    cases hrest : rest with
    | nil =>
      subst hrest
      have hc : c = '\n' := by simpa using h
      subst hc
      simp [rustSplitLines]
    | cons d ds =>
      have hne : rest ≠ [] := by rw [hrest]; simp
      have h' : rest.getLast? = some '\n' := by
        rw [hrest] at h ⊢
        simpa [List.getLast?_cons_cons] using h
      rw [← hrest]
      obtain ⟨l, ls, hsplit⟩ : ∃ l ls, rustSplitLines rest = l :: ls := by
        cases hs : rustSplitLines rest with
        | nil => exact absurd hs (rustSplitLines_ne_nil rest hne)
        | cons l ls => exact ⟨l, ls, rfl⟩
      by_cases hc : c = '\n'
      · subst hc
        simp [rustSplitLines, ih h']
      · simp [rustSplitLines, hc, ih h', hsplit]

/-- A newline-free string followed by `'\n'` is exactly one line. -/
theorem rustSplitLines_single (l : Str) (h : '\n' ∉ l) :
    rustSplitLines (l ++ ['\n']) = [l] := by
  induction l with
  | nil => simp [rustSplitLines]
  | cons c rest ih =>
    have hc : c ≠ '\n' := fun hc => h (by simp [hc])
    have hrest : '\n' ∉ rest := fun hm => h (by simp [hm])
    simp [rustSplitLines, hc, ih hrest]

/-- No produced line contains a newline. -/
theorem rustSplitLines_no_nl (s : Str) : ∀ x ∈ rustSplitLines s, '\n' ∉ x := by
  induction s with
  | nil => simp [rustSplitLines]
  | cons c rest ih =>
    by_cases hc : c = '\n'
    · subst hc
      simp only [rustSplitLines, if_pos rfl]
      intro x hx
      rcases List.mem_cons.mp hx with h | h
      · subst h; simp
      · exact ih x h
    · simp only [rustSplitLines, hc, if_false]
      cases hsplit : rustSplitLines rest with
      | nil =>
        intro x hx
        rcases List.mem_singleton.mp hx with rfl
        simpa using fun h => hc h.symm
      | cons l ls =>
        intro x hx
        rcases List.mem_cons.mp hx with h | h
        · subst h
          intro hm
          rcases List.mem_cons.mp hm with h | h
          · exact hc h.symm
          · exact ih l (by simp [hsplit]) h
        · exact ih x (by simp [hsplit, h])

/-- `stripCR` cannot introduce characters. -/
theorem stripCR_subset (l : Str) : stripCR l ⊆ l := by
  unfold stripCR
  split
  · exact List.dropLast_subset l
  · exact fun _ h => h

/-- `read_lines` distributes over concatenation at a newline boundary (or
an empty left part). -/
theorem read_lines_append (s t : Str) (h : s = [] ∨ s.getLast? = some '\n') :
    read_lines (s ++ t) = read_lines s ++ read_lines t := by
  rcases h with h | h
  · subst h; simp [read_lines, rustLines, rustSplitLines]
  · unfold read_lines rustLines
    rw [rustSplitLines_append s t h, List.map_append, List.filter_append]

/-- Reading back a block of appended entries: each entry newline-free and
not ending in `'\r'` becomes one line; empty entries vanish. -/
theorem read_lines_blocks (xs : List Str)
    (h : ∀ l ∈ xs, '\n' ∉ l ∧ l.getLast? ≠ some '\r') :
    read_lines ((xs.map (fun l => l ++ ['\n'])).flatten)
      = xs.filter (fun l => ! l.isEmpty) := by
  induction xs with
  | nil => simp [read_lines, rustLines, rustSplitLines]
  | cons l ls ih =>
    have hl := h l (by simp)
    have hline : read_lines (l ++ ['\n']) = [l].filter (fun l => ! l.isEmpty) := by
      unfold read_lines rustLines
      rw [rustSplitLines_single l hl.1]
      have : stripCR l = l := by
        unfold stripCR
        rw [if_neg hl.2]
      simp [this]
    rw [List.map_cons, List.flatten_cons,
      read_lines_append _ _ (Or.inr (by simp)), hline,
      ih (fun x hx => h x (by simp [hx]))]
    rw [show List.filter (fun l => ! l.isEmpty) (l :: ls)
        = List.filter (fun l => ! l.isEmpty) [l] ++ List.filter (fun l => ! l.isEmpty) ls
      from List.filter_append [l] ls]

/-- `write_lines` lays out each entry followed by `'\n'`. -/
theorem write_lines_eq_flatten (xs : List Str) :
    write_lines xs = (xs.map (fun l => l ++ ['\n'])).flatten := by
  induction xs with
  | nil => rfl
  | cons l ls ih =>
    cases ls with
    | nil => simp [write_lines, joinNL]
    | cons m ms =>
      have hw : write_lines (m :: ms) = joinNL (m :: ms) ++ ['\n'] := by
        unfold write_lines
        rw [if_neg (by simp)]
      simp only [write_lines, List.isEmpty_cons, if_false, joinNL] at ih ⊢
      rw [List.map_cons, List.flatten_cons, ← ih]
      simp [hw]

/-- Round trip of the line-file store on well-formed entries. -/
theorem read_write_roundtrip (xs : List Str)
    (h : ∀ l ∈ xs, l ≠ [] ∧ '\n' ∉ l ∧ l.getLast? ≠ some '\r') :
    read_lines (write_lines xs) = xs := by
  rw [write_lines_eq_flatten,
    read_lines_blocks xs (fun l hl => ⟨(h l hl).2.1, (h l hl).2.2⟩)]
  rw [List.filter_eq_self]
  intro a ha
  simpa using (h a ha).1

/-- `append_lines` is concatenation with the entry block. -/
theorem append_lines_eq (file : Str) (xs : List Str) :
    append_lines file xs = file ++ (xs.map (fun l => l ++ ['\n'])).flatten := by
  induction xs generalizing file with
  | nil => simp [append_lines]
  | cons l ls ih =>
    rw [append_lines, ih]
    simp

/-- Lines read from a file contain no newline. -/
theorem mem_read_lines_no_nl (s : Str) : ∀ x ∈ read_lines s, '\n' ∉ x := by
  intro x hx hm
  unfold read_lines rustLines at hx
  rcases List.mem_filter.mp hx with ⟨hx', _⟩
  rcases List.mem_map.mp hx' with ⟨y, hy, rfl⟩
  exact rustSplitLines_no_nl s y hy (stripCR_subset y hm)

/-- `decide_result` never produces a `Success` with an empty entry list. -/
theorem decide_result_ne_success_nil (st : RunState) :
    decide_result st ≠ .success [] := by
  intro h
  unfold decide_result at h
  split at h
  · exact SessionResult.noConfusion h
  · split at h
    · rename_i hs
      injection h with h'
      exact hs.2 (by simp [h'])
    · exact SessionResult.noConfusion h

/-- `decide_result` of an empty selection is `Cancelled`. -/
theorem decide_result_empty (st : RunState) (h : st.selection = []) :
    decide_result st = .cancelled := by
  unfold decide_result
  split
  · rfl
  · split
    · rename_i hs
      rw [h] at hs
      simp at hs
    · rfl

/-- C2: a run that ends on the submission path (explicit `Submit` or child
exit) with an empty entry list returns `Cancelled`, and no run ever
returns `Success` with an empty list. -/
theorem C2_empty_submission_cancelled :
    (∀ (initial : List Str) (reqs : List SessionRequest) (childExited : Bool),
      (reqs.foldl handle_request
          { selection := initial, cancelled := false, submitted := false }).selection = [] →
      (childExited = true ∨ SessionRequest.submit ∈ reqs) →
      session_run initial reqs childExited = .cancelled)
    ∧ ∀ (initial : List Str) (reqs : List SessionRequest) (childExited : Bool),
      session_run initial reqs childExited ≠ .success [] := by
  constructor
  · intro initial reqs childExited hempty _
    unfold session_run
    apply decide_result_empty
    cases childExited <;> simpa using hempty
  · intro initial reqs childExited
    unfold session_run
    apply decide_result_ne_success_nil

/-- Witness for C2 at a concrete run: one `select` then `clear`, ended by
child exit. -/
theorem C2_empty_submission_cancelled_witness :
    session_run [] [.select [['a']], .clear] true = .cancelled :=
  C2_empty_submission_cancelled.1 [] [.select [['a']], .clear] true (by decide)
    (Or.inl rfl)

/-- C8: `ensure_base_dir` fails with `PermissionDenied` whenever the base
exists with a foreign owner uid, and on success the base exists, is owned
by the caller, and its permission bits are exactly `0o700`. -/
theorem C8_ensure_base_dir_policy :
    (∀ (myUid umask : Nat) (meta : DirMeta), meta.uid ≠ myUid →
      ensure_base_dir myUid umask (some meta) = .error .permissionDenied)
    ∧ ∀ (myUid umask : Nat) (base out : Option DirMeta),
      ensure_base_dir myUid umask base = .ok out →
      ∃ meta, out = some meta ∧ meta.mode &&& 0o777 = 0o700 ∧ meta.uid = myUid := by
  constructor
  · intro myUid umask meta hneq
    unfold ensure_base_dir
    simp [hneq]
  · intro myUid umask base out h
    cases base with
    | none =>
      simp only [ensure_base_dir] at h
      split at h
      · rename_i hc
        simp at hc
      · split at h
        · cases h
          exact ⟨_, rfl, by show 448 &&& 511 = 448; decide, by rfl⟩
        · cases h
          rename_i hmode
          refine ⟨_, rfl, ?_, by rfl⟩
          simpa using hmode
    | some meta =>
      simp only [ensure_base_dir] at h
      split at h
      · exact Except.noConfusion h
      · split at h
        · cases h
          rename_i hc _
          simp only [ne_eq, not_not] at hc
          exact ⟨_, rfl, by show 448 &&& 511 = 448; decide, hc⟩
        · cases h
          rename_i hc hmode
          simp only [ne_eq, not_not] at hc hmode
          exact ⟨meta, rfl, hmode, hc⟩

/-- Witness for C8: an existing base owned by uid 0 is refused for uid
1000, and a fresh creation under umask `0o22` succeeds at mode `0o700`. -/
theorem C8_ensure_base_dir_policy_witness :
    ensure_base_dir 1000 0o22 (some ⟨0, 0o700⟩) = .error .permissionDenied
    ∧ ∃ meta, (some (⟨1000, 0o700⟩ : DirMeta)) = some meta
        ∧ meta.mode &&& 0o777 = 0o700 ∧ meta.uid = 1000 :=
  ⟨C8_ensure_base_dir_policy.1 1000 0o22 ⟨0, 0o700⟩ (by decide),
   C8_ensure_base_dir_policy.2 1000 0o22 none (some ⟨1000, 0o700⟩) (by decide)⟩

/-- `findIdx?` misses every start index when no element matches. -/
theorem findIdx?_none_of_all_false {α : Type} (m : α → Bool) (l : List α)
    (h : ∀ s ∈ l, m s = false) : ∀ i, l.findIdx? m i = none := by
  induction l with
  | nil => intro i; simp
  | cons x xs ih =>
    intro i
    rw [List.findIdx?_cons]
    rw [h x (by simp)]
    simp only [Bool.false_eq_true, if_false]
    exact ih (fun s hs => h s (by simp [hs])) (i + 1)

/-- `findIdx?` finds the first match, offset by the start index. -/
theorem findIdx?_first_match {α : Type} (m : α → Bool) (l₁ : List α) (s₀ : α)
    (l₂ : List α) (h₁ : ∀ s ∈ l₁, m s = false) (h₀ : m s₀ = true) :
    ∀ i, (l₁ ++ s₀ :: l₂).findIdx? m i = some (i + l₁.length) := by
  induction l₁ with
  | nil => intro i; simp [List.findIdx?_cons, h₀]
  | cons x xs ih =>
    intro i
    rw [List.cons_append, List.findIdx?_cons, h₁ x (by simp)]
    simp only [Bool.false_eq_true, if_false]
    rw [ih (fun s hs => h₁ s (by simp [hs])) (i + 1)]
    simp
    omega

/-- Removing the element right after a prefix. -/
theorem eraseIdx_at_prefix_length {α : Type} (l₁ : List α) (s₀ : α) (l₂ : List α) :
    (l₁ ++ s₀ :: l₂).eraseIdx l₁.length = l₁ ++ l₂ := by
  induction l₁ with
  | nil => simp
  | cons x xs ih => simpa using ih

/-- C9: popping a queued submission for a portal consumes the earliest
submission whose tag is the wildcard (`None`) or the requested portal —
the earliest always wins over any later, more specific one — and when
nothing matches, nothing is returned and the queue is unchanged. -/
theorem C9_pop_for_portal_earliest :
    (∀ (q : SubmissionQueue) (portal : PortalType),
      (∀ s ∈ q.submissions, ¬ (s.portal = none ∨ s.portal = some portal)) →
      pop_for_portal q portal = (none, q))
    ∧ ∀ (pending : List QueuedCommand) (l₁ : List Submission) (s₀ : Submission)
        (l₂ : List Submission) (portal : PortalType),
      (∀ s ∈ l₁, ¬ (s.portal = none ∨ s.portal = some portal)) →
      (s₀.portal = none ∨ s₀.portal = some portal) →
      pop_for_portal ⟨pending, l₁ ++ s₀ :: l₂⟩ portal
        = (some s₀, ⟨pending, l₁ ++ l₂⟩) := by
  have hmatch : ∀ (portal : PortalType) (s : Submission),
      submissionMatches portal s = true ↔ (s.portal = none ∨ s.portal = some portal) := by
    intro portal s
    unfold submissionMatches
    cases hp : s.portal with
    | none => simp
    | some p =>
      simp only [decide_eq_true_eq]
      constructor
      · intro h; exact Or.inr (by rw [h])
      · rintro (h | h)
        · exact absurd h (by simp)
        · injection h
  constructor
  · intro q portal h
    unfold pop_for_portal
    rw [findIdx?_none_of_all_false _ _ ?_ 0]
    intro s hs
    have := h s hs
    rw [← hmatch portal s] at this
    simpa using this
  · intro pending l₁ s₀ l₂ portal h₁ h₀
    unfold pop_for_portal
    rw [findIdx?_first_match _ l₁ s₀ l₂ ?_ ((hmatch portal s₀).mpr h₀) 0]
    · simp only [Nat.zero_add]
      rw [eraseIdx_at_prefix_length]
      have : (l₁ ++ s₀ :: l₂)[l₁.length]? = some s₀ := by
        rw [List.getElem?_append_right (Nat.le_refl _)]
        simp
      rw [this]
    · intro s hs
      have := h₁ s hs
      rw [← hmatch portal s] at this
      simpa using this

/-- Witness for C9: a specific older submission beats a newer wildcard,
and a non-matching queue is left untouched. -/
theorem C9_pop_for_portal_earliest_witness :
    pop_for_portal ⟨[], [⟨[], 1, some .screenshot⟩]⟩ .fileChooser
      = (none, ⟨[], [⟨[], 1, some .screenshot⟩]⟩)
    ∧ pop_for_portal ⟨[], [⟨[], 1, some .fileChooser⟩, ⟨[], 2, none⟩]⟩ .fileChooser
      = (some ⟨[], 1, some .fileChooser⟩, ⟨[], [⟨[], 2, none⟩]⟩) :=
  ⟨C9_pop_for_portal_earliest.1 ⟨[], [⟨[], 1, some .screenshot⟩]⟩ .fileChooser
     (by decide),
   C9_pop_for_portal_earliest.2 [] [] ⟨[], 1, some .fileChooser⟩ [⟨[], 2, none⟩]
     .fileChooser (by decide) (by decide)⟩

/-- C5: `open-file` in single-pick mode is `Invalid` exactly on an empty
submission (with the message `No entries in submission`) or on more than
one entry; a single entry is resolved against `current_folder` and encoded
as a `file://` URI. -/
theorem C5_open_file_single_pick :
    ∀ (fs : FsOracle) (title : Str) (directory : Bool) (folder : Option Str)
      (cands : List Str) (filters : List FileFilter) (cf : Option Nat),
      (file_chooser_validate fs "open-file".toList []
          ⟨title, .pick false directory, folder, cands, filters, cf⟩
        = .error "No entries in submission".toList)
      ∧ (∀ e, file_chooser_validate fs "open-file".toList [e]
          ⟨title, .pick false directory, folder, cands, filters, cf⟩
        = .ok [path_to_file_uri (resolve_path e folder)])
      ∧ ∀ e₁ e₂ es, file_chooser_validate fs "open-file".toList (e₁ :: e₂ :: es)
          ⟨title, .pick false directory, folder, cands, filters, cf⟩
        = .error ("Single-pick mode expects 1 entry, got ".toList
                  ++ natDigits (es.length + 2)) := by
  intro fs title directory folder cands filters cf
  refine ⟨rfl, fun e => rfl, fun e₁ e₂ es => ?_⟩
  unfold file_chooser_validate
  rw [if_neg (by simp), if_neg (by decide), if_neg (by decide), if_pos (by decide)]
  have hlen : (e₁ :: e₂ :: es).length = es.length + 2 := by
    simp only [List.length_cons]
  have hcond : ¬ (false : Bool) = true ∧ (e₁ :: e₂ :: es).length > 1 :=
    ⟨by simp, by omega⟩
  exact (if_pos hcond).trans
    (congrArg (fun n => Except.error ("Single-pick mode expects 1 entry, got ".toList
      ++ natDigits n)) hlen)

/-- C6: `save-file` rejects more than one entry; a single entry resolving
to an existing directory with a present, non-empty first candidate yields
the URI of the candidate joined to the directory, and otherwise the URI of
the resolved entry itself. -/
theorem C6_save_file_candidate :
    ∀ (fs : FsOracle) (title : Str) (mode : SelectionMode) (folder : Option Str)
      (cands : List Str) (filters : List FileFilter) (cf : Option Nat),
      (∀ e₁ e₂ es, file_chooser_validate fs "save-file".toList (e₁ :: e₂ :: es)
          ⟨title, mode, folder, cands, filters, cf⟩
        = .error ("Save mode expects 1 entry, got ".toList ++ natDigits (es.length + 2)))
      ∧ (∀ e name, cands.head? = some name → name ≠ [] →
          fs.isDir (resolve_path e folder) = true →
          file_chooser_validate fs "save-file".toList [e]
            ⟨title, mode, folder, cands, filters, cf⟩
          = .ok [path_to_file_uri (pathJoin (resolve_path e folder) name)])
      ∧ ∀ e, ¬ saveCandidateApplies fs cands (resolve_path e folder) →
          file_chooser_validate fs "save-file".toList [e]
            ⟨title, mode, folder, cands, filters, cf⟩
          = .ok [path_to_file_uri (resolve_path e folder)] := by
  intro fs title mode folder cands filters cf
  refine ⟨fun e₁ e₂ es => ?_, fun e name hname hne hdir => ?_, fun e hnot => ?_⟩
  · unfold file_chooser_validate
    rw [if_neg (by simp), if_pos (by decide)]
    have hlen : (e₁ :: e₂ :: es).length = es.length + 2 := by
      simp only [List.length_cons]
    have hcond : (e₁ :: e₂ :: es).length > 1 := by omega
    exact (if_pos hcond).trans
      (congrArg (fun n => Except.error ("Save mode expects 1 entry, got ".toList
        ++ natDigits n)) hlen)
  · unfold file_chooser_validate
    rw [if_neg (by simp), if_pos (by decide), if_neg (by simp)]
    unfold resolve_save_file_to_uri
    rw [hname]
    exact congrArg (fun u => Except.ok [u]) (if_pos ⟨by simpa using hne, hdir⟩)
  · unfold file_chooser_validate
    rw [if_neg (by simp), if_pos (by decide), if_neg (by simp)]
    unfold resolve_save_file_to_uri
    unfold saveCandidateApplies at hnot
    push_neg at hnot
    cases hname : cands.head? with
    | none => rfl
    | some name =>
      refine congrArg (fun u => Except.ok [u]) (if_neg ?_)
      rintro ⟨hne, hdir⟩
      exact absurd hdir (by simpa using hnot name hname (by simpa using hne))

/-- Witness for C6 at the spec's save-file scenario (`/tmp/out` an existing
directory, candidate `report.pdf`), the no-candidate pass-through, and an
absolute candidate `/etc/x`, which `Path::join` lets replace the selected
directory (the result is `file:///etc/x`). -/
theorem C6_save_file_candidate_witness :
    file_chooser_validate ⟨fun p => p = "/tmp/out".toList, fun _ => false⟩
        "save-file".toList ["/tmp/out".toList]
        ⟨[], .save, some "/tmp".toList, ["report.pdf".toList], [], none⟩
      = .ok [path_to_file_uri (pathJoin (resolve_path "/tmp/out".toList (some "/tmp".toList))
              "report.pdf".toList)]
    ∧ file_chooser_validate ⟨fun p => p = "/tmp/out".toList, fun _ => false⟩
        "save-file".toList ["/tmp/out".toList]
        ⟨[], .save, some "/tmp".toList, [], [], none⟩
      = .ok [path_to_file_uri (resolve_path "/tmp/out".toList (some "/tmp".toList))]
    ∧ file_chooser_validate ⟨fun p => p = "/tmp/out".toList, fun _ => false⟩
        "save-file".toList ["/tmp/out".toList]
        ⟨[], .save, some "/tmp".toList, ["/etc/x".toList], [], none⟩
      = .ok ["file:///etc/x".toList] :=
  ⟨(C6_save_file_candidate ⟨fun p => p = "/tmp/out".toList, fun _ => false⟩ []
      .save (some "/tmp".toList) ["report.pdf".toList] [] none).2.1
      "/tmp/out".toList "report.pdf".toList rfl (by decide) (by decide),
   (C6_save_file_candidate ⟨fun p => p = "/tmp/out".toList, fun _ => false⟩ []
      .save (some "/tmp".toList) [] [] none).2.2 "/tmp/out".toList
      (by rintro ⟨name, hname, -, -⟩; cases hname),
   ((C6_save_file_candidate ⟨fun p => p = "/tmp/out".toList, fun _ => false⟩ []
      .save (some "/tmp".toList) ["/etc/x".toList] [] none).2.1
      "/tmp/out".toList "/etc/x".toList rfl (by decide) (by decide)).trans (by decide)⟩

/-- Counterexample to C4 as stated: the entry `"a\r"` is non-empty and
newline-free, yet `write_lines` then `read_lines` returns `["a"]` — the
`"\r\n"` sequence is read back as a bare line terminator. -/
theorem C4_cx_carriage_return :
    (['a', '\r'] ≠ ([] : Str) ∧ '\n' ∉ (['a', '\r'] : Str))
    ∧ read_lines (write_lines [['a', '\r']]) ≠ [['a', '\r']] := by
  decide

/-- C4 (amended): `write_lines` lays out one entry per line with a
trailing newline (and truncates on an empty list); for entries that are
non-empty, newline-free and not ending in a carriage return, `write_lines`
then `read_lines` is the identity. -/
theorem C4_line_store_roundtrip (xs : List Str)
    (h : ∀ l ∈ xs, l ≠ [] ∧ '\n' ∉ l ∧ l.getLast? ≠ some '\r') :
    write_lines xs = (xs.map (fun l => l ++ ['\n'])).flatten
    ∧ read_lines (write_lines xs) = xs :=
  ⟨write_lines_eq_flatten xs, read_write_roundtrip xs h⟩

/-- Witness for C4 at `["a", "b"]`. -/
theorem C4_line_store_roundtrip_witness :
    write_lines [['a'], ['b']] = (([['a'], ['b']] : List Str).map (fun l => l ++ ['\n'])).flatten
    ∧ read_lines (write_lines [['a'], ['b']]) = [['a'], ['b']] :=
  C4_line_store_roundtrip [['a'], ['b']] (by decide)

/-- Counterexample to C3 as stated: on a submission already containing
`"a"`, `edit ["a"]` then `remove ["a"]` empties the file instead of
restoring it — `remove_lines` filters every occurrence. -/
theorem C3_cx_duplicate_entry :
    read_lines (remove_lines (append_lines ['a', '\n'] [['a']]) [['a']])
      ≠ read_lines ['a', '\n'] := by
  decide

/-- C3 (amended): `edit xs; remove xs` preserves the submission's read
contents, order included, provided the prior file is a well-formed line
file (empty or newline-terminated, no line ending in a carriage return)
and each edited entry is newline-free, does not end in a carriage return,
and does not already occur as a line of the file. -/
theorem C3_edit_remove_inverse (file : Str) (xs : List Str)
    (hfile : file = [] ∨ file.getLast? = some '\n')
    (hlines : ∀ e ∈ read_lines file, e.getLast? ≠ some '\r')
    (hxs : ∀ l ∈ xs, '\n' ∉ l ∧ l.getLast? ≠ some '\r' ∧ l ∉ read_lines file) :
    read_lines (remove_lines (append_lines file xs) xs) = read_lines file := by
  rw [append_lines_eq]
  unfold remove_lines
  rw [read_lines_append _ _ hfile,
    read_lines_blocks xs (fun l hl => ⟨(hxs l hl).1, (hxs l hl).2.1⟩),
    List.filter_append]
  have h1 : (read_lines file).filter (fun e => ! xs.contains e) = read_lines file := by
    rw [List.filter_eq_self]
    intro e he
    simp only [Bool.not_eq_true', ← Bool.not_eq_true]
    intro hc
    exact absurd he ((hxs e (by simpa using hc)).2.2)
  have h2 : ((xs.filter (fun l => ! l.isEmpty)).filter (fun e => ! xs.contains e)) = [] := by
    rw [List.filter_eq_nil_iff]
    intro e he
    have hmem : e ∈ xs := (List.mem_filter.mp he).1
    simp [hmem]
  rw [h1, h2, List.append_nil]
  exact read_write_roundtrip (read_lines file)
    (fun e he => ⟨by simpa using (List.mem_filter.mp he).2,
      mem_read_lines_no_nl file e he, hlines e he⟩)

/-- Witness for C3: append `b` to the file `"a\n"` and remove it again. -/
theorem C3_edit_remove_inverse_witness :
    read_lines (remove_lines (append_lines ['a', '\n'] [['b']]) [['b']])
      = read_lines ['a', '\n'] :=
  C3_edit_remove_inverse ['a', '\n'] [['b']] (by decide) (by decide) (by decide)

/-! ### Lemmas for the response encoding (C7) -/

theorem digitChar_not_special (n : Nat) :
    digitChar n ≠ '\n' ∧ digitChar n ≠ '\t' ∧ digitChar n ≠ '\r' := by
  unfold digitChar
  repeat' split
  all_goals decide

theorem natDigits_not_special (n : Nat) :
    ∀ c ∈ natDigits n, c ≠ '\n' ∧ c ≠ '\t' ∧ c ≠ '\r' := by
  induction n using Nat.strong_induction_on with
  | _ n ih =>
    unfold natDigits
    split
    · intro c hc
      rcases List.mem_singleton.mp hc with rfl
      exact digitChar_not_special _
    · rename_i hlt
      intro c hc
      rcases List.mem_append.mp hc with h | h
      · exact ih (n / 10) (Nat.div_lt_self (by omega) (by omega)) c h
      · rcases List.mem_singleton.mp h with rfl
        exact digitChar_not_special _

theorem sanitize_field_not_special (s : Str) :
    ∀ c ∈ sanitize_field s, c ≠ '\n' ∧ c ≠ '\t' ∧ c ≠ '\r' := by
  intro c hc
  rcases List.mem_map.mp hc with ⟨d, _, rfl⟩
  by_cases hd : (d = '\t' || d = '\n' || d = '\r') = true
  · simp only [hd, if_true]
    decide
  · simp only [hd, if_false]
    simp only [Bool.or_eq_true, decide_eq_true_eq, not_or] at hd
    exact ⟨hd.1.2, hd.1.1, hd.2⟩

theorem infoFields_not_special (s : SessionInfo) :
    ∀ f ∈ infoFields s, ∀ c ∈ f, c ≠ '\n' ∧ c ≠ '\t' ∧ c ≠ '\r' := by
  intro f hf
  simp only [infoFields, List.mem_cons, List.not_mem_nil, or_false] at hf
  rcases hf with rfl | rfl | rfl | rfl | rfl | rfl
  · exact fun c hc => sanitize_field_not_special _ c hc
  · exact fun c hc => sanitize_field_not_special _ c hc
  · exact fun c hc => sanitize_field_not_special _ c hc
  · exact fun c hc => natDigits_not_special _ c hc
  · exact fun c hc => sanitize_field_not_special _ c hc
  · exact fun c hc => sanitize_field_not_special _ c hc

theorem joinCh_mem (sep : Char) (fields : List Str) (c : Char)
    (hc : c ∈ joinCh sep fields) : c = sep ∨ ∃ f ∈ fields, c ∈ f := by
  induction fields with
  | nil => cases hc
  | cons l ls ih =>
    cases ls with
    | nil =>
      right
      exact ⟨l, by simp, by simpa [joinCh] using hc⟩
    | cons m ms =>
      rw [show joinCh sep (l :: m :: ms) = l ++ sep :: joinCh sep (m :: ms) from rfl]
        at hc
      rcases List.mem_append.mp hc with h | h
      · exact Or.inr ⟨l, by simp, h⟩
      · rcases List.mem_cons.mp h with h | h
        · exact Or.inl h
        · rcases ih h with h | ⟨f, hf, hcf⟩
          · exact Or.inl h
          · exact Or.inr ⟨f, by simp [hf], hcf⟩

/-- The body of a session-info line is free of `'\n'` and `'\r'`. -/
theorem infoLine_clean (s : SessionInfo) :
    ∀ c ∈ joinCh '\t' (infoFields s), c ≠ '\n' ∧ c ≠ '\r' := by
  intro c hc
  rcases joinCh_mem '\t' (infoFields s) c hc with rfl | ⟨f, hf, hcf⟩
  · exact ⟨by decide, by decide⟩
  · have := infoFields_not_special s f hf c hcf
    exact ⟨this.1, this.2.2⟩

theorem sessionLine_eq (s : SessionInfo) :
    sessionLine s = joinCh '\t' (infoFields s) ++ ['\n'] := by
  simp [sessionLine, joinCh, infoFields, List.append_assoc]

/-- `rustLines` of an encoded `Sessions` response: one line per session,
then the bare terminator `ok`. -/
theorem rustLines_encode_sessions (ss : List SessionInfo) :
    rustLines (Response.encode (.sessions ss))
      = ss.map (fun s => joinCh '\t' (infoFields s)) ++ ["ok".toList] := by
  induction ss with
  | nil => decide
  | cons s ss ih =>
    have henc : Response.encode (.sessions (s :: ss))
        = sessionLine s ++ Response.encode (.sessions ss) := by
      show (List.map sessionLine (s :: ss)).flatten ++ "ok\n".toList = _
      rw [List.map_cons, List.flatten_cons, List.append_assoc]
      rfl
    have hlast : (sessionLine s).getLast? = some '\n' := by
      rw [sessionLine_eq]
      exact List.getLast?_concat _
    have hnl : '\n' ∉ joinCh '\t' (infoFields s) :=
      fun h => (infoLine_clean s _ h).1 rfl
    unfold rustLines
    rw [henc, rustSplitLines_append _ _ hlast, sessionLine_eq,
      rustSplitLines_single _ hnl, List.map_append]
    rw [show List.map stripCR (rustSplitLines (Response.encode (.sessions ss)))
        = ss.map (fun s => joinCh '\t' (infoFields s)) ++ ["ok".toList] from ih]
    have hstrip : stripCR (joinCh '\t' (infoFields s)) = joinCh '\t' (infoFields s) := by
      unfold stripCR
      rw [if_neg]
      intro h
      exact (infoLine_clean s _ (List.mem_of_mem_getLast? h)).2 rfl
    simp [hstrip]

/-- One step of `splitSep` on a non-separator head. -/
theorem splitSep_cons_ne (sep c : Char) (rest : Str) (hc : ¬ c = sep) :
    splitSep sep (c :: rest)
      = match splitSep sep rest with
        | [] => [[c]]
        | l :: ls => (c :: l) :: ls := by
  simp only [splitSep, hc, if_false]

theorem splitSep_no_sep (sep : Char) (l : Str) (h : sep ∉ l) :
    splitSep sep l = [l] := by
  induction l with
  | nil => rfl
  | cons c rest ih =>
    have hc : ¬ c = sep := fun hc => h (by simp [hc])
    have hrest : sep ∉ rest := fun hm => h (by simp [hm])
    rw [splitSep_cons_ne sep c rest hc, ih hrest]

theorem splitSep_cons_field (sep : Char) (f t : Str) (h : sep ∉ f) :
    splitSep sep (f ++ sep :: t) = f :: splitSep sep t := by
  induction f with
  | nil => simp [splitSep]
  | cons c fs ih =>
    have hc : ¬ c = sep := fun hc => h (by simp [hc])
    have hfs : sep ∉ fs := fun hm => h (by simp [hm])
    rw [List.cons_append, splitSep_cons_ne sep c _ hc, ih hfs]

theorem joinCh_splitSep (sep : Char) (fields : List Str)
    (hne : fields ≠ []) (h : ∀ f ∈ fields, sep ∉ f) :
    splitSep sep (joinCh sep fields) = fields := by
  induction fields with
  | nil => exact absurd rfl hne
  | cons l ls ih =>
    cases ls with
    | nil => exact splitSep_no_sep sep l (h l (by simp))
    | cons m ms =>
      rw [show joinCh sep (l :: m :: ms) = l ++ sep :: joinCh sep (m :: ms) from rfl,
        splitSep_cons_field sep _ _ (h l (by simp)),
        ih (by simp) (fun f hf => h f (by simp [hf]))]

/-- C7: an encoded `Sessions` response is exactly one line per session —
six tab-separated fields, the textual ones with embedded tab, carriage
return, and line feed replaced by spaces — followed by the lone terminator
line `ok`; the empty list encodes as `ok` alone, and the client decodes a
bare `ok` response as the empty session list. -/
theorem C7_response_injection_free :
    (∀ ss : List SessionInfo,
      rustLines (Response.encode (.sessions ss))
        = ss.map (fun s => joinCh '\t' (infoFields s)) ++ ["ok".toList])
    ∧ (∀ s : SessionInfo, splitSep '\t' (joinCh '\t' (infoFields s)) = infoFields s)
    ∧ Response.encode (.sessions []) = "ok\n".toList
    ∧ client_list ["ok\n".toList] = .ok [] := by
  refine ⟨rustLines_encode_sessions, ?_, rfl, rfl⟩
  intro s
  exact joinCh_splitSep '\t' (infoFields s) (by simp [infoFields])
    (fun f hf hc => (infoFields_not_special s f hf '\t' hc).2.1 rfl)

/-! ### Lemmas for the request codec (C10) -/

/-- `dropTrailing` leaves a string alone when its last character does not
match. -/
theorem dropTrailing_of_last (p : Char → Bool) (s : Str) (hne : s ≠ [])
    (h : ∀ c, s.getLast? = some c → p c = false) : dropTrailing p s = s := by
  cases hr : s.reverse with
  | nil => exact absurd (by simpa using congrArg List.reverse hr) hne
  | cons a rs =>
    have hlast : s.getLast? = some a := by
      rw [← List.head?_reverse, hr]
      rfl
    unfold dropTrailing
    rw [hr, List.dropWhile_cons, h a hlast]
    simp only [Bool.false_eq_true, if_false]
    rw [← hr, List.reverse_reverse]

/-- `dropTrailing` removes a matching final character. -/
theorem dropTrailing_concat_drop (p : Char → Bool) (s : Str) (a : Char)
    (h : p a = true) : dropTrailing p (s ++ [a]) = dropTrailing p s := by
  unfold dropTrailing
  rw [List.reverse_append]
  simp [List.dropWhile_cons, h]

/-- Trimming an encoded `verb id\n` line recovers `verb id`. -/
theorem rustTrim_encode_line (v : Char) (vs id : Str)
    (hv : rustWs v = false) (hid : id ≠ [])
    (hlast : ∀ c, id.getLast? = some c → rustWs c = false) :
    rustTrim ((v :: vs ++ ' ' :: id) ++ ['\n']) = v :: vs ++ ' ' :: id := by
  unfold rustTrim
  have h1 : ((v :: vs ++ ' ' :: id) ++ ['\n']).dropWhile rustWs
      = (v :: vs ++ ' ' :: id) ++ ['\n'] := by
    rw [List.cons_append, List.cons_append, List.dropWhile_cons, hv]
    simp
  rw [h1, dropTrailing_concat_drop _ _ _ (by decide)]
  apply dropTrailing_of_last _ _ (by simp)
  intro c hc
  rw [List.getLast?_append_of_ne_nil _ (by simpa using hid)] at hc
  rw [show (' ' :: id).getLast? = id.getLast? from
    List.getLast?_append_of_ne_nil [' '] hid] at hc
  exact hlast c hc

/-- Splitting an encoded `verb arg` pair at its first space. -/
theorem splitOnce_encode (verb id : Str) (h : ' ' ∉ verb) :
    splitOnce ' ' (verb ++ ' ' :: id) = some (verb, id) := by
  induction verb with
  | nil => simp [splitOnce]
  | cons v vs ih =>
    have hv : ¬ v = ' ' := fun hv => h (by simp [hv])
    have hvs : ' ' ∉ vs := fun hm => h (by simp [hm])
    rw [List.cons_append, splitOnce, if_neg hv, ih hvs]
    rfl

/-- Exactly one newline in an encoded `verb id\n` line (`pre` is the verb
together with its trailing space). -/
theorem count_nl_encode (pre id : Str) (h₁ : '\n' ∉ pre) (h₂ : '\n' ∉ id) :
    (pre ++ id ++ ['\n']).count '\n' = 1 := by
  rw [List.count_append, List.count_append]
  rw [List.count_eq_zero.mpr h₁, List.count_eq_zero.mpr h₂]
  decide

/-- Counterexample to C10 as stated: the request `submit` with the empty
session identifier encodes to `"submit \n"`, which decodes to `submit`
with no identifier. -/
theorem C10_cx_empty_id :
    Request.decode (Request.encode (.submit (some [])))
      ≠ Except.ok (.submit (some [])) := by
  decide

/-- Trimming a `verb id` line (no terminator) is the identity when the
verb starts with a non-whitespace character and the identifier does not
end in whitespace. -/
theorem rustTrim_verb_id (v : Char) (vs id : Str) (hv : rustWs v = false)
    (hid : id ≠ []) (hlast : ∀ c, id.getLast? = some c → rustWs c = false) :
    rustTrim (v :: vs ++ ' ' :: id) = v :: vs ++ ' ' :: id := by
  unfold rustTrim
  have h1 : (v :: vs ++ ' ' :: id).dropWhile rustWs = v :: vs ++ ' ' :: id := by
    rw [List.cons_append, List.dropWhile_cons, hv]
    simp
  rw [h1]
  apply dropTrailing_of_last _ _ (by simp)
  intro c hc
  apply hlast
  rw [show (v :: vs ++ ' ' :: id) = (v :: vs ++ [' ']) ++ id from by simp] at hc
  rwa [List.getLast?_append_of_ne_nil _ hid] at hc

/-- C10 (amended): for every request whose optional session identifier is
non-empty, newline-free, and does not end in a whitespace character, the
encoding is a single newline-terminated line (exactly one `'\n'`, at the
end) and decoding it returns the identical request. -/
theorem C10_request_roundtrip (r : Request) (h : goodRequest r) :
    (Request.encode r).count '\n' = 1
    ∧ (Request.encode r).getLast? = some '\n'
    ∧ Request.decode (Request.encode r) = .ok r := by
  have hverb : ∀ (v : Char) (vs id : Str), rustWs v = false → goodId id →
      Request.decode ((v :: vs ++ ' ' :: id) ++ ['\n'])
        = Request.decode (v :: vs ++ ' ' :: id) := by
    intro v vs id hv hid
    unfold Request.decode
    rw [rustTrim_encode_line v vs id hv hid.1 hid.2.2,
      rustTrim_verb_id v vs id hv hid.1 hid.2.2]
  cases r with
  | list => exact ⟨by decide, by decide, by decide⟩
  | submit sid =>
    cases sid with
    | none => exact ⟨by decide, by decide, by decide⟩
    | some id =>
      have hid : goodId id := h
      refine ⟨count_nl_encode "submit ".toList id (by decide) hid.2.1,
        List.getLast?_concat _, ?_⟩
      show Request.decode (('s' :: "ubmit".toList ++ ' ' :: id) ++ ['\n']) = _
      rw [hverb 's' "ubmit".toList id (by decide) hid]
      unfold Request.decode
      rw [rustTrim_verb_id 's' "ubmit".toList id (by decide) hid.1 hid.2.2]
      dsimp only []
      rw [show splitOnce ' ' ('s' :: "ubmit".toList ++ ' ' :: id)
          = some ("submit".toList, id) from splitOnce_encode "submit".toList id (by decide)]
      rfl
  | cancel sid =>
    cases sid with
    | none => exact ⟨by decide, by decide, by decide⟩
    | some id =>
      have hid : goodId id := h
      refine ⟨count_nl_encode "cancel ".toList id (by decide) hid.2.1,
        List.getLast?_concat _, ?_⟩
      show Request.decode (('c' :: "ancel".toList ++ ' ' :: id) ++ ['\n']) = _
      rw [hverb 'c' "ancel".toList id (by decide) hid]
      unfold Request.decode
      rw [rustTrim_verb_id 'c' "ancel".toList id (by decide) hid.1 hid.2.2]
      dsimp only []
      rw [show splitOnce ' ' ('c' :: "ancel".toList ++ ' ' :: id)
          = some ("cancel".toList, id) from splitOnce_encode "cancel".toList id (by decide)]
      rfl
  | verify sid =>
    cases sid with
    | none => exact ⟨by decide, by decide, by decide⟩
    | some id =>
      have hid : goodId id := h
      refine ⟨count_nl_encode "verify ".toList id (by decide) hid.2.1,
        List.getLast?_concat _, ?_⟩
      show Request.decode (('v' :: "erify".toList ++ ' ' :: id) ++ ['\n']) = _
      rw [hverb 'v' "erify".toList id (by decide) hid]
      unfold Request.decode
      rw [rustTrim_verb_id 'v' "erify".toList id (by decide) hid.1 hid.2.2]
      dsimp only []
      rw [show splitOnce ' ' ('v' :: "erify".toList ++ ' ' :: id)
          = some ("verify".toList, id) from splitOnce_encode "verify".toList id (by decide)]
      rfl
  | reset sid =>
    cases sid with
    | none => exact ⟨by decide, by decide, by decide⟩
    | some id =>
      have hid : goodId id := h
      refine ⟨count_nl_encode "reset ".toList id (by decide) hid.2.1,
        List.getLast?_concat _, ?_⟩
      show Request.decode (('r' :: "eset".toList ++ ' ' :: id) ++ ['\n']) = _
      rw [hverb 'r' "eset".toList id (by decide) hid]
      unfold Request.decode
      rw [rustTrim_verb_id 'r' "eset".toList id (by decide) hid.1 hid.2.2]
      dsimp only []
      rw [show splitOnce ' ' ('r' :: "eset".toList ++ ' ' :: id)
          = some ("reset".toList, id) from splitOnce_encode "reset".toList id (by decide)]
      rfl

/-- Witness for C10 with the identifier `abc`. -/
theorem C10_request_roundtrip_witness :
    (Request.encode (.submit (some "abc".toList))).count '\n' = 1
    ∧ (Request.encode (.submit (some "abc".toList))).getLast? = some '\n'
    ∧ Request.decode (Request.encode (.submit (some "abc".toList)))
        = .ok (.submit (some "abc".toList)) :=
  C10_request_roundtrip (.submit (some "abc".toList))
    ⟨by decide, by decide, by
      intro c hc
      have he : ("abc".toList : Str).getLast? = some 'c' := by decide
      rw [he] at hc
      cases hc
      decide⟩

/-! ### Lemmas for the color parser (C1) -/

theorem isDigit_bounds (c : Char) (h : c.isDigit = true) :
    48 ≤ c.toNat ∧ c.toNat ≤ 57 := by
  simp [Char.isDigit] at h
  exact ⟨h.1, h.2⟩

theorem hexDigVal_lt (c : Char) (h : isHexDig c = true) : hexDigVal c < 16 := by
  unfold isHexDig at h
  unfold hexDigVal
  simp only [Bool.or_eq_true, Bool.and_eq_true, decide_eq_true_eq] at h
  rcases h with (hd | ⟨h1, h2⟩) | ⟨h1, h2⟩
  · rw [if_pos hd]
    have := isDigit_bounds c hd
    omega
  · have hb1 : 97 ≤ c.toNat := h1
    have hb2 : c.toNat ≤ 102 := h2
    have hd : c.isDigit = false := by
      rcases Bool.eq_false_or_eq_true c.isDigit with h | h
      · exact absurd (isDigit_bounds c h).2 (by omega)
      · exact h
    rw [if_neg (by simp [hd]), if_pos (by
      simp only [Bool.and_eq_true, decide_eq_true_eq]
      exact ⟨h1, h2⟩)]
    omega
  · have hb1 : 65 ≤ c.toNat := h1
    have hb2 : c.toNat ≤ 70 := h2
    have hd : c.isDigit = false := by
      rcases Bool.eq_false_or_eq_true c.isDigit with h | h
      · exact absurd (isDigit_bounds c h).2 (by omega)
      · exact h
    rw [if_neg (by simp [hd]), if_neg (by
      simp only [Bool.and_eq_true, decide_eq_true_eq, not_and]
      intro hcon
      have : 97 ≤ c.toNat := hcon
      omega)]
    omega

theorem hexVal_pair (a b : Char) : hexVal [a, b] = 16 * hexDigVal a + hexDigVal b := by
  simp [hexVal, List.foldl]

/-- `parseNatHex` succeeds exactly on a non-empty all-hex remainder within
the bound. -/
theorem parseNatHex_isSome_iff (bound : Nat) (s : Str) :
    (parseNatHex bound s).isSome = true ↔
      (stripPlus s ≠ [] ∧ (stripPlus s).all isHexDig = true
        ∧ hexVal (stripPlus s) ≤ bound) := by
  unfold parseNatHex
  dsimp only []
  split
  · rename_i h
    split
    · rename_i hle
      exact iff_of_true (by simp) ⟨h.1, h.2, hle⟩
    · rename_i hle
      exact iff_of_false (by simp) (fun hx => hle hx.2.2)
  · rename_i h
    exact iff_of_false (by simp) (fun hx => h ⟨hx.1, hx.2.1⟩)

/-- `parseNatDec` succeeds exactly on a non-empty all-digit remainder
within the bound. -/
theorem parseNatDec_isSome_iff (bound : Nat) (s : Str) :
    (parseNatDec bound s).isSome = true ↔
      (stripPlus s ≠ [] ∧ (stripPlus s).all Char.isDigit = true
        ∧ decVal (stripPlus s) ≤ bound) := by
  unfold parseNatDec
  dsimp only []
  split
  · rename_i h
    split
    · rename_i hle
      exact iff_of_true (by simp) ⟨h.1, h.2, hle⟩
    · rename_i hle
      exact iff_of_false (by simp) (fun hx => hle hx.2.2)
  · rename_i h
    exact iff_of_false (by simp) (fun hx => h ⟨hx.1, hx.2.1⟩)

/-- On two-character pieces, `u8::from_str_radix(…, 16)` succeeds exactly
on the grammar-level hex pair (the bound 255 is automatic). -/
theorem parseNatHex_pair (a b : Char) :
    (parseNatHex 255 [a, b]).isSome = hexPairOk [a, b] := by
  apply Bool.coe_iff_coe.mp
  rw [parseNatHex_isSome_iff]
  by_cases ha : a = '+'
  · subst ha
    rw [show stripPlus ['+', b] = [b] from rfl]
    constructor
    · rintro ⟨-, hall, -⟩
      have hb : isHexDig b = true := by simpa using hall
      simp [hexPairOk, hb]
    · intro h
      have hb : isHexDig b = true := by
        simpa [hexPairOk, show isHexDig '+' = false from by decide] using h
      refine ⟨by simp, by simpa using hb, ?_⟩
      have := hexDigVal_lt b hb
      simp only [hexVal, List.foldl_cons, List.foldl_nil]
      omega
  · rw [show stripPlus [a, b] = [a, b] from by
      unfold stripPlus
      split
      · rename_i heq
        injection heq with h1 _
        first
          | exact absurd h1 ha
          | exact absurd h1.symm ha
      · rfl]
    constructor
    · rintro ⟨-, hall, -⟩
      simp only [List.all_cons, List.all_nil, Bool.and_eq_true, Bool.and_true] at hall
      simp [hexPairOk, hall.1, hall.2]
    · intro h
      have h' := h
      simp only [hexPairOk, Bool.or_eq_true, Bool.and_eq_true, decide_eq_true_eq] at h'
      rcases h' with ⟨ha1, hb1⟩ | ⟨hplus, hb1⟩
      · refine ⟨by simp, by simp [ha1, hb1], ?_⟩
        rw [hexVal_pair]
        have := hexDigVal_lt a ha1
        have := hexDigVal_lt b hb1
        omega
      · exact absurd hplus ha

/-- `specU8` is exactly the success of `u8` decimal parsing. -/
theorem parseNatDec_specU8 (p : Str) :
    (parseNatDec 255 p).isSome = specU8 p := by
  apply Bool.coe_iff_coe.mp
  rw [parseNatDec_isSome_iff]
  unfold specU8
  dsimp only []
  constructor
  · rintro ⟨h1, h2, h3⟩
    simp [h1, h2, h3]
  · intro h
    simp only [Bool.and_eq_true, decide_eq_true_eq] at h
    exact ⟨h.1.1, h.1.2, h.2⟩

theorem splitSign_other (c : Char) (rest : Str) (h1 : ¬ c = '+') (h2 : ¬ c = '-') :
    splitSign (c :: rest) = (1, c :: rest) := by
  unfold splitSign
  split
  · rename_i heq
    injection heq with ha _
    first
      | exact absurd ha h1
      | exact absurd ha.symm h1
  · rename_i heq
    injection heq with ha _
    first
      | exact absurd ha h2
      | exact absurd ha.symm h2
  · rfl

theorem spanDigits_not_digit (c : Char) (rest : Str) (h : c.isDigit = false) :
    spanDigits (c :: rest) = ([], c :: rest) := by
  simp [spanDigits, List.takeWhile_cons, List.dropWhile_cons, h]

/-- A token whose head is no sign, digit, or point never parses as a
float. -/
theorem parseFloat_none_head (c : Char) (rest : Str) (h1 : ¬ c = '+') (h2 : ¬ c = '-')
    (h3 : c.isDigit = false) (h4 : ¬ c = '.') : parseFloat (c :: rest) = none := by
  unfold parseFloat
  rw [splitSign_other c rest h1 h2]
  dsimp only []
  rw [spanDigits_not_digit c rest h3]
  dsimp only []
  split
  · rename_i heq
    injection heq with ha _
    first
      | exact absurd ha h4
      | exact absurd ha.symm h4
  · rw [if_pos rfl]

theorem splitWsAux_acc (r : Str) : ∀ acc, acc ≠ [] →
    ∃ t ts, splitWsAux acc r = (acc.reverse ++ t) :: ts := by
  induction r with
  | nil =>
    intro acc hacc
    exact ⟨[], [], by simp [splitWsAux, hacc]⟩
  | cons c rest ih =>
    intro acc hacc
    by_cases hc : rustWs c = true
    · exact ⟨[], splitWsAux [] rest, by simp [splitWsAux, hc, hacc]⟩
    · obtain ⟨t, ts, h⟩ := ih (c :: acc) (by simp)
      refine ⟨c :: t, ts, ?_⟩
      rw [show splitWsAux acc (c :: rest) = splitWsAux (c :: acc) rest from by
        simp [splitWsAux, hc]]
      rw [h]
      simp

/-- The first whitespace-token of a string starting with a non-whitespace
character starts with that character. -/
theorem splitWs_cons (c : Char) (r : Str) (hc : rustWs c = false) :
    ∃ t ts, splitWs (c :: r) = (c :: t) :: ts := by
  obtain ⟨t, ts, h⟩ := splitWsAux_acc r [c] (by simp)
  refine ⟨t, ts, ?_⟩
  unfold splitWs
  rw [show splitWsAux [] (c :: r) = splitWsAux [c] r from by simp [splitWsAux, hc]]
  simpa using h

theorem specFloats_head_none (c : Char) (r : Str) (hc : rustWs c = false)
    (hpf : ∀ t, parseFloat (c :: t) = none) : specFloats (c :: r) = false := by
  obtain ⟨t, ts, hsplit⟩ := splitWs_cons c r hc
  unfold specFloats
  dsimp only []
  rw [hsplit]
  simp [List.all_cons, hpf t]

/-- The float branch of `parse_color` succeeds exactly on the spec's
three-floats grammar. -/
theorem parse_color_floats_isSome (s : Str) :
    (parse_color_floats s).isSome = specFloats s := by
  unfold parse_color_floats specFloats
  dsimp only []
  by_cases hlen : (splitWs s).length = 3
  · obtain ⟨p1, p2, p3, hp⟩ := List.length_eq_three.mp hlen
    rw [hp, if_pos (by rw [hp] at hlen; exact hlen)]
    rcases h1 : parseFloat p1 with _ | v1 <;> rcases h2 : parseFloat p2 with _ | v2 <;>
      rcases h3 : parseFloat p3 with _ | v3 <;>
      simp only [List.getD_cons_zero, List.getD_cons_succ, h1, h2, h3,
        List.all_cons, List.all_nil, List.length_cons, List.length_nil]
    all_goals simp
    by_cases hu : inUnit v1 ∧ inUnit v2 ∧ inUnit v3
    · rw [if_pos hu]
      simp [hu.1, hu.2.1, hu.2.2]
    · rw [if_neg hu]
      rcases not_and_or.mp hu with h | h
      · simp [Bool.eq_false_iff.mpr (fun ht => h ht)]
      · rcases not_and_or.mp h with h | h
        · simp [Bool.eq_false_iff.mpr (fun ht => h ht)]
        · simp [Bool.eq_false_iff.mpr (fun ht => h ht)]
  · rw [if_neg hlen]
    have hd : decide ((splitWs s).length = 3) = false := by simpa using hlen
    simp [hd]

theorem stripPre_eq_some {p s r : Str} (h : stripPre p s = some r) : s = p ++ r := by
  unfold stripPre at h
  split at h
  · rename_i hp
    injection h with h
    subst h
    obtain ⟨t, ht⟩ := List.isPrefixOf_iff_prefix.mp hp
    rw [← ht, List.drop_left]
  · cases h

theorem length_eq_six {l : Str} (h : l.length = 6) :
    ∃ a b c d e f, l = [a, b, c, d, e, f] := by
  rcases l with _ | ⟨a, l⟩
  · simp at h
  rcases l with _ | ⟨b, l⟩
  · simp at h
  rcases l with _ | ⟨c, l⟩
  · simp at h
  rcases l with _ | ⟨d, l⟩
  · simp at h
  rcases l with _ | ⟨e, l⟩
  · simp at h
  rcases l with _ | ⟨f, l⟩
  · simp at h
  rcases l with _ | ⟨g, l⟩
  · exact ⟨a, b, c, d, e, f, rfl⟩
  · simp only [List.length_cons, List.length_nil] at h
    omega

/-- The `rgb(…)` branch (with its float fallthrough) succeeds exactly on
the spec's `rgb` grammar or float grammar. -/
theorem parse_color_rgb_isSome (s : Str) :
    (parse_color_rgb s).isSome = (specRgb s || specFloats s) := by
  unfold parse_color_rgb specRgb
  cases hst : (stripPre "rgb(".toList s).bind (stripSuf [')']) with
  | none =>
    rw [parse_color_floats_isSome]
    simp
  | some inner =>
    have hpre : ∃ s1, stripPre "rgb(".toList s = some s1 := by
      cases hp : stripPre "rgb(".toList s with
      | none => rw [hp] at hst; cases hst
      | some s1 => exact ⟨s1, rfl⟩
    obtain ⟨s1, hs1⟩ := hpre
    have hs : s = "rgb(".toList ++ s1 := stripPre_eq_some hs1
    have hfl : specFloats s = false := by
      rw [hs]
      exact specFloats_head_none 'r' _ (by decide)
        (fun t => parseFloat_none_head 'r' t (by decide) (by decide) (by decide) (by decide))
    dsimp only []
    by_cases h3 : ((splitSep ',' inner).map rustTrim).length = 3
    · rw [if_pos h3]
      obtain ⟨q1, q2, q3, hq⟩ := List.length_eq_three.mp h3
      rw [hq]
      rcases hd1 : parseNatDec 255 q1 with _ | v1 <;>
        rcases hd2 : parseNatDec 255 q2 with _ | v2 <;>
        rcases hd3 : parseNatDec 255 q3 with _ | v3 <;>
        simp [List.getD_cons_zero, List.getD_cons_succ, hd1, hd2, hd3,
          List.all_cons, List.all_nil, ← parseNatDec_specU8, hfl]
    · rw [if_neg h3]
      rw [parse_color_floats_isSome, hfl]
      have hd : decide (((splitSep ',' inner).map rustTrim).length = 3) = false := by
        simpa using h3
      simp only [hd, Bool.false_and, Bool.false_or]

/-- `parse_color` succeeds exactly on the spec's color grammar (applied to
the trimmed input). -/
theorem parse_color_isSome (s : Str) :
    (parse_color s).isSome = colorGrammar (rustTrim s) := by
  unfold parse_color colorGrammar
  dsimp only []
  generalize rustTrim s = t
  cases ht : stripPre ['#'] t with
  | none =>
    rw [parse_color_rgb_isSome]
    have hhex : specHex t = false := by
      unfold specHex
      cases t with
      | nil => rfl
      | cons c r =>
        have hc : ¬ c = '#' := by
          intro hc
          subst hc
          unfold stripPre at ht
          rw [if_pos (by simp [List.isPrefixOf])] at ht
          cases ht
        split
        · rename_i heq
          injection heq with h1 _
          first
            | exact absurd h1 hc
            | exact absurd h1.symm hc
        · rfl
    rw [hhex]
    simp
  | some hex =>
    have hteq : t = '#' :: hex := by
      simpa using stripPre_eq_some ht
    subst hteq
    dsimp only []
    by_cases h6 : hex.length = 6
    · rw [if_pos h6]
      obtain ⟨a, b, c2, d, e, f, hhex⟩ := length_eq_six h6
      subst hhex
      have hrgb : specRgb ('#' :: [a, b, c2, d, e, f]) = false := rfl
      have hfl : specFloats ('#' :: [a, b, c2, d, e, f]) = false :=
        specFloats_head_none '#' _ (by decide)
          (fun t => parseFloat_none_head '#' t (by decide) (by decide) (by decide) (by decide))
      rw [show ([a, b, c2, d, e, f] : Str).take 2 = [a, b] from rfl,
        show (([a, b, c2, d, e, f] : Str).drop 2).take 2 = [c2, d] from rfl,
        show ([a, b, c2, d, e, f] : Str).drop 4 = [e, f] from rfl]
      rcases hx1 : parseNatHex 255 [a, b] with _ | v1 <;>
        rcases hx2 : parseNatHex 255 [c2, d] with _ | v2 <;>
        rcases hx3 : parseNatHex 255 [e, f] with _ | v3 <;>
        simp [specHex, hrgb, hfl, ← parseNatHex_pair, hx1, hx2, hx3]
    · rw [if_neg h6]
      rw [parse_color_rgb_isSome]
      have hhex : specHex ('#' :: hex) = false := by
        unfold specHex
        have hd : decide (hex.length = 6) = false := by simpa using h6
        simp [hd]
      rw [hhex]
      simp

/-- Counterexample to C1 as stated: the validator does not canonicalize —
for the input `#FF8000` it returns `["#FF8000"]` verbatim, not
`["#ff8000"]`. -/
theorem C1_cx_no_canonicalization :
    screenshot_validate "pick-color".toList ["#FF8000".toList] = .ok ["#FF8000".toList]
    ∧ screenshot_validate "pick-color".toList ["#FF8000".toList] ≠ .ok ["#ff8000".toList] := by
  decide

/-- C1 (amended): for a single-entry submission the pick-color validator
strips any `file://` prefix, succeeds exactly when the remainder (after
trimming) matches the color grammar — `#rrggbb` hex case-insensitive,
`rgb(r,g,b)` with 0–255 integers, or three whitespace-separated floats
each in `[0.0, 1.0]`, each numeric component allowing the leading `'+'`
its Rust integer parser accepts — and returns the stripped entry string
verbatim (so `"#FF8000"` yields `["#FF8000"]`), with the documented error
message otherwise. -/
theorem C1_pick_color_validator :
    (∀ e : Str,
      screenshot_validate "pick-color".toList [e]
        = (if colorGrammar (rustTrim ((stripPre "file://".toList e).getD e))
           then .ok [(stripPre "file://".toList e).getD e]
           else .error (colorErrMsg ((stripPre "file://".toList e).getD e))))
    ∧ screenshot_validate "pick-color".toList ["#FF8000".toList] = .ok ["#FF8000".toList] := by
  constructor
  · intro e
    unfold screenshot_validate
    rw [if_neg (by simp), if_neg (by simp), if_pos rfl]
    dsimp only []
    rw [show (([e] : List Str).getD 0 []) = e from rfl]
    cases hp : parse_color ((stripPre "file://".toList e).getD e) with
    | some v =>
      have hg : colorGrammar (rustTrim ((stripPre "file://".toList e).getD e)) = true := by
        rw [← parse_color_isSome, hp]
        rfl
      exact (if_pos hg).symm
    | none =>
      have hg : colorGrammar (rustTrim ((stripPre "file://".toList e).getD e)) = false := by
        rw [← parse_color_isSome, hp]
        rfl
      have hg2 : colorGrammar (rustTrim
          ((stripPre (['f','i','l','e',':','/','/'] : Str) e).getD e)) = false := hg
      exact (if_neg (by simp [hg2])).symm
  · decide

end Portty
